import Mathlib

/-!
Shallow embedding of the SeqVision toolkit (src/SeqVision.py,
src/modules/dna_rna_tools_module.py, src/modules/fastq_tool_module.py).

Sequences are modelled as `List Char`.  Python exceptions are modelled with
`Except PyError`; dictionary lookup is `Char → Option Char` (a `none` result
is a `KeyError`).  Python `str.upper` is modelled by ASCII `Char.toUpper`
(all characters handled by this code base are ASCII).  Python floats are
modelled as exact decimal rationals (`ℚ`).
-/

namespace SeqVision

/-- Python exceptions raised by the embedded code. -/
inductive PyError where
  /-- `ValueError` raised by `is_valid_alphabet`; carries the set of
  offending characters that the message enumerates. -/
  | valueError (invalidChars : Finset Char)
  /-- `KeyError` from a dictionary lookup on a missing key. -/
  | keyError
  /-- `ZeroDivisionError` from dividing by a zero length. -/
  | zeroDivisionError
  /-- `ValueError` raised by the Biopython FASTQ parser on bad framing. -/
  | malformedRecord
deriving DecidableEq

instance {ε α : Type} [DecidableEq ε] [DecidableEq α] :
    DecidableEq (Except ε α) := fun x y =>
  match x, y with
  | .ok a, .ok b =>
    match decEq a b with
    | isTrue h => isTrue (by rw [h])
    | isFalse h => isFalse (by intro hc; cases hc; exact h rfl)
  | .error a, .error b =>
    match decEq a b with
    | isTrue h => isTrue (by rw [h])
    | isFalse h => isFalse (by intro hc; cases hc; exact h rfl)
  | .ok _, .error _ => isFalse (by intro hc; cases hc)
  | .error _, .ok _ => isFalse (by intro hc; cases hc)

/-- `DNASequence.allowed_chars = {"A", "T", "C", "G"}`. -/
def dnaAllowed : List Char := ['A', 'T', 'C', 'G']

/-- `RNASequence.allowed_chars = {"A", "U", "C", "G"}`. -/
def rnaAllowed : List Char := ['A', 'U', 'C', 'G']

/-- `AminoAcidSequence.allowed_chars` (the 20 standard amino-acid letters). -/
def proteinAllowed : List Char :=
  ['A', 'R', 'N', 'D', 'C', 'Q', 'E', 'G', 'H', 'I',
   'L', 'K', 'M', 'F', 'P', 'S', 'T', 'W', 'Y', 'V']

/-- `{char for char in self.seq if char not in self.allowed_chars}`: the set
of characters of `s` that lie outside `allowed`. -/
def invalidSet (allowed s : List Char) : Finset Char :=
  (s.filter (fun c => decide (c ∉ allowed))).toFinset

/-- `BiologicalSequence.is_valid_alphabet`: collect the set of characters of
`s` outside `allowed`; raise `ValueError` enumerating that set if it is
nonempty, otherwise succeed (return `True` in the source). -/
def is_valid_alphabet (allowed : List Char) (s : List Char) :
    Except PyError Unit :=
  if invalidSet allowed s = ∅ then .ok ()
  else .error (.valueError (invalidSet allowed s))

/-- A Python list comprehension `[dict[i] for i in seq]` over a dictionary:
the first missing key aborts the whole comprehension (`KeyError`). -/
def mapDict {β : Type} (f : Char → Option β) : List Char → Option (List β)
  | [] => some []
  | c :: cs =>
    match f c with
    | none => none
    | some b =>
      match mapDict f cs with
      | none => none
      | some bs => some (b :: bs)

/-- A `DNASequence` instance: just its `_seq` field. -/
structure DNASequence where
  seq : List Char
deriving DecidableEq, Repr

/-- A `RNASequence` instance: just its `_seq` field. -/
structure RNASequence where
  seq : List Char
deriving DecidableEq, Repr

/-- An `AminoAcidSequence` instance: just its `_seq` field. -/
structure AminoAcidSequence where
  seq : List Char
deriving DecidableEq, Repr

/-- `DNASequence.__init__`: store `seq.upper()`, then `is_valid_alphabet`. -/
def mkDNA (s : List Char) : Except PyError DNASequence :=
  let up := s.map Char.toUpper
  match is_valid_alphabet dnaAllowed up with
  | .ok _ => .ok ⟨up⟩
  | .error e => .error e

/-- `RNASequence.__init__`: store `seq.upper()`, then `is_valid_alphabet`. -/
def mkRNA (s : List Char) : Except PyError RNASequence :=
  let up := s.map Char.toUpper
  match is_valid_alphabet rnaAllowed up with
  | .ok _ => .ok ⟨up⟩
  | .error e => .error e

/-- `AminoAcidSequence.__init__`: store `seq` as-is, then `is_valid_alphabet`. -/
def mkProtein (s : List Char) : Except PyError AminoAcidSequence :=
  match is_valid_alphabet proteinAllowed s with
  | .ok _ => .ok ⟨s⟩
  | .error e => .error e

/-- `DNASequence._complement_dict = {"A": "T", "T": "A", "C": "G", "G": "C"}`. -/
def dnaComplementDict (c : Char) : Option Char :=
  if c = 'A' then some 'T'
  else if c = 'T' then some 'A'
  else if c = 'C' then some 'G'
  else if c = 'G' then some 'C'
  else none

/-- `RNASequence._complement_dict = {"A": "U", "U": "A", "C": "G", "G": "C"}`. -/
def rnaComplementDict (c : Char) : Option Char :=
  if c = 'A' then some 'U'
  else if c = 'U' then some 'A'
  else if c = 'C' then some 'G'
  else if c = 'G' then some 'C'
  else none

/-- `NucleicAcidSequence.complement` for DNA: look every base up in
`_complement_dict` (a missing key is a `KeyError`) and build a new instance
through the validating constructor (`_create_new`). -/
def DNASequence.complement (d : DNASequence) : Except PyError DNASequence :=
  match mapDict dnaComplementDict d.seq with
  | none => .error .keyError
  | some cs => mkDNA cs

/-- `NucleicAcidSequence.complement` for RNA. -/
def RNASequence.complement (r : RNASequence) : Except PyError RNASequence :=
  match mapDict rnaComplementDict r.seq with
  | none => .error .keyError
  | some cs => mkRNA cs

/-- `DNASequence._transcribe_dict = {"A": "U", "T": "A", "C": "G", "G": "C"}`,
applied through `str.translate`, which maps listed characters and passes any
other character through unchanged. -/
def transcribeTranslate (c : Char) : Char :=
  if c = 'A' then 'U'
  else if c = 'T' then 'A'
  else if c = 'C' then 'G'
  else if c = 'G' then 'C'
  else c

/-- `DNASequence.transcribe`: `RNASequence(self._seq.translate(...))`. -/
def DNASequence.transcribe (d : DNASequence) : Except PyError RNASequence :=
  mkRNA (d.seq.map transcribeTranslate)

/-- `AminoAcidSequence._MOLECULAR_WEIGHTS` (daltons, exact decimals). -/
def molecularWeightDict (c : Char) : Option ℚ :=
  if c = 'A' then some (8909 / 100)
  else if c = 'R' then some (17420 / 100)
  else if c = 'N' then some (13212 / 100)
  else if c = 'D' then some (13310 / 100)
  else if c = 'C' then some (12116 / 100)
  else if c = 'Q' then some (14615 / 100)
  else if c = 'E' then some (14713 / 100)
  else if c = 'G' then some (7507 / 100)
  else if c = 'H' then some (15516 / 100)
  else if c = 'I' then some (13118 / 100)
  else if c = 'L' then some (13118 / 100)
  else if c = 'K' then some (14619 / 100)
  else if c = 'M' then some (14921 / 100)
  else if c = 'F' then some (16519 / 100)
  else if c = 'P' then some (11513 / 100)
  else if c = 'S' then some (10509 / 100)
  else if c = 'T' then some (11912 / 100)
  else if c = 'W' then some (20423 / 100)
  else if c = 'Y' then some (18119 / 100)
  else if c = 'V' then some (11715 / 100)
  else none

/-- `AminoAcidSequence.get_molecular_weight`:
`sum([self._MOLECULAR_WEIGHTS[aa] for aa in self._seq])` (a residue missing
from the table would be a `KeyError`). -/
def AminoAcidSequence.get_molecular_weight (p : AminoAcidSequence) :
    Except PyError ℚ :=
  match mapDict molecularWeightDict p.seq with
  | none => .error .keyError
  | some ws => .ok ws.sum

end SeqVision

namespace DnaRnaTools

/-!
Embedding of src/modules/dna_rna_tools_module.py.
-/

open SeqVision (PyError)

/-- `set_dna = {"A", "G", "C", "T", "a", "g", "c", "t"}`. -/
def set_dna : List Char := ['A', 'G', 'C', 'T', 'a', 'g', 'c', 't']

/-- `set_rna = {"A", "G", "C", "U", "a", "g", "c", "u"}`. -/
def set_rna : List Char := ['A', 'G', 'C', 'U', 'a', 'g', 'c', 'u']

/-- `ComplementDictDna` (both cases, A↔T, G↔C). -/
def ComplementDictDna (c : Char) : Option Char :=
  if c = 'a' then some 't'
  else if c = 'A' then some 'T'
  else if c = 't' then some 'a'
  else if c = 'T' then some 'A'
  else if c = 'g' then some 'c'
  else if c = 'G' then some 'C'
  else if c = 'c' then some 'g'
  else if c = 'C' then some 'G'
  else none

/-- `ComplementDictRna` (both cases, A↔U, G↔C). -/
def ComplementDictRna (c : Char) : Option Char :=
  if c = 'a' then some 'u'
  else if c = 'A' then some 'U'
  else if c = 'u' then some 'a'
  else if c = 'U' then some 'A'
  else if c = 'g' then some 'c'
  else if c = 'G' then some 'C'
  else if c = 'c' then some 'g'
  else if c = 'C' then some 'G'
  else none

/-- `is_dna(seq)`: `set(seq.upper()) <= set_dna`. -/
def is_dna (s : List Char) : Bool :=
  decide ((s.map Char.toUpper).toFinset ⊆ set_dna.toFinset)

/-- `is_rna(seq)`: `set(seq.upper()) <= set_rna`. -/
def is_rna (s : List Char) : Bool :=
  decide ((s.map Char.toUpper).toFinset ⊆ set_rna.toFinset)

/-- Module-level `complement(seq)`: start from the empty string; if the
input is DNA, replace the result by the DNA-map complement; if the input is
(also) RNA, overwrite the result by the RNA-map complement; return whatever
is left.  A missing dictionary key is a `KeyError`. -/
def complement (s : List Char) : Except PyError (List Char) :=
  let afterDna : Except PyError (List Char) :=
    if is_dna s then
      match SeqVision.mapDict ComplementDictDna s with
      | none => .error .keyError
      | some cs => .ok cs
    else .ok []
  match afterDna with
  | .error e => .error e
  | .ok cur =>
    if is_rna s then
      match SeqVision.mapDict ComplementDictRna s with
      | none => .error .keyError
      | some cs => .ok cs
    else .ok cur

end DnaRnaTools

namespace FastqTool

/-!
Embedding of src/modules/fastq_tool_module.py.  A FASTQ mapping is an
association list from read names to (sequence, quality) pairs — Python
dictionaries preserve insertion order and have unique keys.
-/

open SeqVision (PyError)

/-- A read: its sequence letters and its per-base quality string. -/
abbrev Read := List Char × List Char

/-- The mapping handled by the module filters. -/
abbrev FastqData := List (String × Read)

/-- GC bounds as accepted by the filters: a bare scalar (`int` or `float`)
or an explicit pair. -/
inductive GcBounds where
  | scalar (x : ℚ)
  | pair (lo hi : ℚ)
deriving DecidableEq

/-- Length bounds as accepted by the filters: a bare `int` scalar or an
explicit pair. -/
inductive LengthBounds where
  | scalar (n : ℤ)
  | pair (lo hi : ℤ)
deriving DecidableEq

/-- `if isinstance(gc_bounds, (int, float)): gc_bounds = (0, gc_bounds)`. -/
def normalizeGc : GcBounds → ℚ × ℚ
  | .scalar x => (0, x)
  | .pair lo hi => (lo, hi)

/-- `if isinstance(length_bounds, int): length_bounds = (0, length_bounds)`. -/
def normalizeLength : LengthBounds → ℤ × ℤ
  | .scalar n => (0, n)
  | .pair lo hi => (lo, hi)

/-- `seq.upper().count("G") + seq.upper().count("C")`. -/
def countGC (s : List Char) : ℕ :=
  (s.map Char.toUpper).count 'G' + (s.map Char.toUpper).count 'C'

/-- `calculate_gc_content(seq)`: `gc_count / len(seq) * 100` — dividing by
the length raises `ZeroDivisionError` when the sequence is empty. -/
def calculate_gc_content (s : List Char) : Except PyError ℚ :=
  if s.length = 0 then .error .zeroDivisionError
  else .ok ((countGC s : ℚ) / (s.length : ℚ) * 100)

/-- The loop shared by the three module filters: `filtered = data.copy()`,
then iterate over the items of the (unmodified) input and `del` from the
copy every read the predicate rejects; a predicate error aborts the loop. -/
def filterLoop (adm : Read → Except PyError Bool) :
    FastqData → FastqData → Except PyError FastqData
  | [], acc => .ok acc
  | e :: todo, acc =>
    match adm e.2 with
    | .error err => .error err
    | .ok true => filterLoop adm todo acc
    | .ok false => filterLoop adm todo (acc.filter (fun x => decide (x.1 ≠ e.1)))

/-- The admission test inside `filter_reads_by_gc`:
`gc_bounds[0] <= calculate_gc_content(seq) <= gc_bounds[1]`. -/
def gcAdmit (b : ℚ × ℚ) (r : Read) : Except PyError Bool :=
  match calculate_gc_content r.1 with
  | .error e => .error e
  | .ok gc => .ok (decide (b.1 ≤ gc ∧ gc ≤ b.2))

/-- `filter_reads_by_gc(fastq_data, gc_bounds)`. -/
def filter_reads_by_gc (gc_bounds : GcBounds) (data : FastqData) :
    Except PyError FastqData :=
  filterLoop (gcAdmit (normalizeGc gc_bounds)) data data

/-- The admission test inside `filter_length_bounds`:
`length_bounds[0] <= len(seq) <= length_bounds[1]`. -/
def lengthAdmit (b : ℤ × ℤ) (r : Read) : Except PyError Bool :=
  .ok (decide (b.1 ≤ (r.1.length : ℤ) ∧ (r.1.length : ℤ) ≤ b.2))

/-- `filter_length_bounds(fastq_data, length_bounds)`. -/
def filter_length_bounds (length_bounds : LengthBounds) (data : FastqData) :
    Except PyError FastqData :=
  filterLoop (lengthAdmit (normalizeLength length_bounds)) data data

/-- The admission test inside `filter_quality_threshold`: sum
`ord(chr) - 33` over the quality string, divide by its length (raising
`ZeroDivisionError` when it is empty) and compare with the threshold. -/
def qualityAdmit (trashhold : ℚ) (r : Read) : Except PyError Bool :=
  if r.2.length = 0 then .error .zeroDivisionError
  else
    .ok (decide (((r.2.map (fun c => (c.toNat : ℤ) - 33)).sum : ℚ) /
      (r.2.length : ℚ) ≥ trashhold))

/-- `filter_quality_threshold(fastq_data, trashhold)`. -/
def filter_quality_threshold (trashhold : ℚ) (data : FastqData) :
    Except PyError FastqData :=
  filterLoop (qualityAdmit trashhold) data data

end FastqTool

namespace SeqVision

/-!
Embedding of `filter_fastq` from src/SeqVision.py.  The function streams a
FASTQ file through `Bio.SeqIO`: records are parsed by Biopython's FASTQ
reader (four lines per record: `@title`, sequence, `+` optionally followed
by a repeat of the title, quality in Phred+33), filtered by the three
inlined predicates, and written back by Biopython's FASTQ writer, which
emits each record as `@title`, sequence, a bare `+` line, quality.  Files
are modelled as lists of lines (each a `List Char`).
-/

open FastqTool (GcBounds LengthBounds normalizeGc normalizeLength)

/-- One parsed FASTQ record: the title line after `@`, the sequence line,
the part of the third line after `+` (the optional repeated title), and the
quality line. -/
structure FastqRecord where
  title : List Char
  sq : List Char
  plus : List Char
  qual : List Char
deriving DecidableEq

/-- The four input lines a record came from. -/
def FastqRecord.sourceLines (r : FastqRecord) : List (List Char) :=
  ['@' :: r.title, r.sq, '+' :: r.plus, r.qual]

/-- Models Biopython's FASTQ reader on strictly four-line records: the
first line must start with `@`, the third with `+`; a nonempty second title
must repeat the first; sequence and quality must have equal length; quality
characters must be Phred+33 printable ASCII (code points 33–126).  Any
violation is a Biopython `ValueError` (malformed record). -/
def parseFastqLines : List (List Char) → Except PyError (List FastqRecord)
  | [] => .ok []
  | l1 :: l2 :: l3 :: l4 :: rest =>
    if l1.head? = some '@' ∧ l3.head? = some '+' then
      if l3.tail ≠ [] ∧ l3.tail ≠ l1.tail then .error .malformedRecord
      else if l2.length ≠ l4.length then .error .malformedRecord
      else if ¬ l4.all (fun c => 33 ≤ c.toNat && c.toNat ≤ 126) then
        .error .malformedRecord
      else
        match parseFastqLines rest with
        | .ok rs => .ok (⟨l1.tail, l2, l3.tail, l4⟩ :: rs)
        | .error e => .error e
    else .error .malformedRecord
  | _ => .error .malformedRecord

/-- Models `Bio.SeqUtils.gc_fraction(s, ambiguous="ignore")`: the count of
`C`, `G` and the two-base ambiguity code `S` (either case) divided by the
full length. -/
def gc_fraction (s : List Char) : ℚ :=
  if s.length = 0 then 0
  else ((s.count 'C' + s.count 'G' + s.count 'S'
    + s.count 'c' + s.count 'g' + s.count 's' : ℕ) : ℚ) / (s.length : ℚ)

/-- The inlined length predicate of `filter_fastq`:
`len_min <= len(record.seq) <= len_max`. -/
def streamLenPred (lo hi : ℤ) (s : List Char) : Bool :=
  decide (lo ≤ (s.length : ℤ) ∧ (s.length : ℤ) ≤ hi)

/-- The inlined GC predicate of `filter_fastq`:
`(gc_min <= gc_fraction(s, ambiguous="ignore") * 100 <= gc_max) if s else
False`. -/
def streamGcPred (lo hi : ℚ) (s : List Char) : Bool :=
  if s.length ≠ 0 then
    decide (lo ≤ gc_fraction s * 100 ∧ gc_fraction s * 100 ≤ hi)
  else false

/-- The inlined quality predicate of `filter_fastq`:
`sum(q) / len(q) >= quality_threshold if q else False`, where `q` is the
list of Phred scores `ord(char) - 33` decoded by Biopython. -/
def streamQualPred (t : ℚ) (qual : List Char) : Bool :=
  if qual.length ≠ 0 then
    decide ((((qual.map (fun c => (c.toNat : ℤ) - 33)).sum : ℤ) : ℚ) /
      (qual.length : ℚ) ≥ t)
  else false

/-- The conjunction of the three inlined predicates, in source order. -/
def recordAdmitted (g : ℚ × ℚ) (l : ℤ × ℤ) (t : ℚ) (r : FastqRecord) : Bool :=
  streamLenPred l.1 l.2 r.sq && streamGcPred g.1 g.2 r.sq
    && streamQualPred t r.qual

/-- Models Biopython's FASTQ writer: `@title`, sequence, a bare `+`,
quality.  (The parsed description round-trips to the original title; the
repeated title after `+`, if any, is dropped.) -/
def writeRecord (r : FastqRecord) : List (List Char) :=
  ['@' :: r.title, r.sq, ['+'], r.qual]

/-- `filter_fastq` on the lines of the input file: normalize both bounds,
parse, keep the records admitted by all three predicates, and serialize
them in order through the Biopython writer. -/
def filter_fastq_lines (gc_bounds : GcBounds) (length_bounds : LengthBounds)
    (quality_threshold : ℚ) (lines : List (List Char)) :
    Except PyError (List (List Char)) :=
  let g := normalizeGc gc_bounds
  let l := normalizeLength length_bounds
  match parseFastqLines lines with
  | .error e => .error e
  | .ok recs =>
    .ok ((recs.filter (recordAdmitted g l quality_threshold)).flatMap writeRecord)

end SeqVision

namespace SeqVision

theorem invalidSet_eq_empty_iff (allowed s : List Char) :
    invalidSet allowed s = ∅ ↔ ∀ c ∈ s, c ∈ allowed := by
  simp [invalidSet, Finset.filter_eq_empty_iff]

theorem invalidSet_ne_empty_iff (allowed s : List Char) :
    invalidSet allowed s ≠ ∅ ↔ ∃ c ∈ s, c ∉ allowed := by
  rw [Ne, invalidSet_eq_empty_iff]
  push_neg
  rfl

theorem mkDNA_ok_of {s : List Char}
    (h : ∀ c ∈ s.map Char.toUpper, c ∈ dnaAllowed) :
    mkDNA s = .ok ⟨s.map Char.toUpper⟩ := by
  unfold mkDNA is_valid_alphabet
  simp [(invalidSet_eq_empty_iff dnaAllowed (s.map Char.toUpper)).mpr h]

theorem mkRNA_ok_of {s : List Char}
    (h : ∀ c ∈ s.map Char.toUpper, c ∈ rnaAllowed) :
    mkRNA s = .ok ⟨s.map Char.toUpper⟩ := by
  unfold mkRNA is_valid_alphabet
  simp [(invalidSet_eq_empty_iff rnaAllowed (s.map Char.toUpper)).mpr h]

theorem mkProtein_ok_of {s : List Char}
    (h : ∀ c ∈ s, c ∈ proteinAllowed) :
    mkProtein s = .ok ⟨s⟩ := by
  unfold mkProtein is_valid_alphabet
  simp [(invalidSet_eq_empty_iff proteinAllowed s).mpr h]

theorem mkDNA_error_of {s : List Char}
    (h : invalidSet dnaAllowed (s.map Char.toUpper) ≠ ∅) :
    mkDNA s = .error (.valueError (invalidSet dnaAllowed (s.map Char.toUpper))) := by
  unfold mkDNA is_valid_alphabet
  simp [h]

theorem mkRNA_error_of {s : List Char}
    (h : invalidSet rnaAllowed (s.map Char.toUpper) ≠ ∅) :
    mkRNA s = .error (.valueError (invalidSet rnaAllowed (s.map Char.toUpper))) := by
  unfold mkRNA is_valid_alphabet
  simp [h]

theorem mkProtein_error_of {s : List Char}
    (h : invalidSet proteinAllowed s ≠ ∅) :
    mkProtein s = .error (.valueError (invalidSet proteinAllowed s)) := by
  unfold mkProtein is_valid_alphabet
  simp [h]

theorem mkDNA_ok_inv {s : List Char} {d : DNASequence}
    (h : mkDNA s = .ok d) :
    d.seq = s.map Char.toUpper ∧ ∀ c ∈ d.seq, c ∈ dnaAllowed := by
  unfold mkDNA is_valid_alphabet at h
  by_cases hi : invalidSet dnaAllowed (s.map Char.toUpper) = ∅
  · simp [hi] at h
    refine ⟨by rw [← h], ?_⟩
    rw [← h]
    exact (invalidSet_eq_empty_iff _ _).mp hi
  · simp [hi] at h

theorem mkRNA_ok_inv {s : List Char} {r : RNASequence}
    (h : mkRNA s = .ok r) :
    r.seq = s.map Char.toUpper ∧ ∀ c ∈ r.seq, c ∈ rnaAllowed := by
  unfold mkRNA is_valid_alphabet at h
  by_cases hi : invalidSet rnaAllowed (s.map Char.toUpper) = ∅
  · simp [hi] at h
    refine ⟨by rw [← h], ?_⟩
    rw [← h]
    exact (invalidSet_eq_empty_iff _ _).mp hi
  · simp [hi] at h

theorem mkProtein_ok_inv {s : List Char} {p : AminoAcidSequence}
    (h : mkProtein s = .ok p) :
    p.seq = s ∧ ∀ c ∈ p.seq, c ∈ proteinAllowed := by
  unfold mkProtein is_valid_alphabet at h
  by_cases hi : invalidSet proteinAllowed s = ∅
  · simp [hi] at h
    refine ⟨by rw [← h], ?_⟩
    rw [← h]
    exact (invalidSet_eq_empty_iff _ _).mp hi
  · simp [hi] at h

theorem mapDict_eq_map {β : Type} (f : Char → Option β) (g : Char → β)
    (l : List Char) (h : ∀ c ∈ l, f c = some (g c)) :
    mapDict f l = some (l.map g) := by
  induction l with
  | nil => rfl
  | cons c cs ih =>
    have hc := h c (by simp)
    have hcs := ih (fun x hx => h x (by simp [hx]))
    simp [mapDict, hc, hcs]

theorem mapDict_mem {β : Type} (f : Char → Option β) :
    ∀ {l : List Char} {bs : List β}, mapDict f l = some bs →
      ∀ b ∈ bs, ∃ c ∈ l, f c = some b := by
  intro l
  induction l with
  | nil =>
    intro bs h b hb
    simp [mapDict] at h
    subst h
    simp at hb
  | cons c cs ih =>
    intro bs h b hb
    unfold mapDict at h
    cases hc : f c with
    | none => simp [hc] at h
    | some v =>
      simp only [hc] at h
      cases hcs : mapDict f cs with
      | none => simp [hcs] at h
      | some vs =>
        simp only [hcs] at h
        cases h
        rcases List.mem_cons.mp hb with hb | hb
        · exact ⟨c, by simp, by rw [hc, hb]⟩
        · rcases ih hcs b hb with ⟨x, hx, hfx⟩
          exact ⟨x, by simp [hx], hfx⟩

end SeqVision

/-- C7: constructing a DNA, RNA, or Protein sequence first uppercases
(nucleic acids) or leaves case as-is (protein), then fails with the
`ValueError` enumerating the offending character set iff some resulting
character is outside the variant's alphabet, and otherwise returns an
instance holding the normalized letters. -/
theorem C7_construction_validates_alphabet (s : List Char) :
    (SeqVision.mkDNA s =
        .error (.valueError (SeqVision.invalidSet SeqVision.dnaAllowed
          (s.map Char.toUpper))) ↔
      ∃ c ∈ s.map Char.toUpper, c ∉ SeqVision.dnaAllowed) ∧
    ((∀ c ∈ s.map Char.toUpper, c ∈ SeqVision.dnaAllowed) →
      SeqVision.mkDNA s = .ok ⟨s.map Char.toUpper⟩) ∧
    (SeqVision.mkRNA s =
        .error (.valueError (SeqVision.invalidSet SeqVision.rnaAllowed
          (s.map Char.toUpper))) ↔
      ∃ c ∈ s.map Char.toUpper, c ∉ SeqVision.rnaAllowed) ∧
    ((∀ c ∈ s.map Char.toUpper, c ∈ SeqVision.rnaAllowed) →
      SeqVision.mkRNA s = .ok ⟨s.map Char.toUpper⟩) ∧
    (SeqVision.mkProtein s =
        .error (.valueError (SeqVision.invalidSet SeqVision.proteinAllowed s)) ↔
      ∃ c ∈ s, c ∉ SeqVision.proteinAllowed) ∧
    ((∀ c ∈ s, c ∈ SeqVision.proteinAllowed) →
      SeqVision.mkProtein s = .ok ⟨s⟩) := by
  refine ⟨⟨fun h => ?_, fun h => ?_⟩, SeqVision.mkDNA_ok_of,
    ⟨fun h => ?_, fun h => ?_⟩, SeqVision.mkRNA_ok_of,
    ⟨fun h => ?_, fun h => ?_⟩, SeqVision.mkProtein_ok_of⟩
  · by_contra hc
    push_neg at hc
    rw [SeqVision.mkDNA_ok_of hc] at h
    exact Except.noConfusion h
  · exact SeqVision.mkDNA_error_of
      ((SeqVision.invalidSet_ne_empty_iff _ _).mpr h)
  · by_contra hc
    push_neg at hc
    rw [SeqVision.mkRNA_ok_of hc] at h
    exact Except.noConfusion h
  · exact SeqVision.mkRNA_error_of
      ((SeqVision.invalidSet_ne_empty_iff _ _).mpr h)
  · by_contra hc
    push_neg at hc
    rw [SeqVision.mkProtein_ok_of hc] at h
    exact Except.noConfusion h
  · exact SeqVision.mkProtein_error_of
      ((SeqVision.invalidSet_ne_empty_iff _ _).mpr h)

/-- C7 applied at concrete inputs: `DNASequence("atx")` raises carrying
`{'X'}` (after uppercasing), and `AminoAcidSequence("MK")` constructs. -/
theorem C7_construction_validates_alphabet_witness :
    SeqVision.mkDNA ['a', 't', 'x'] =
      .error (.valueError (SeqVision.invalidSet SeqVision.dnaAllowed
        (['a', 't', 'x'].map Char.toUpper))) ∧
    SeqVision.mkProtein ['M', 'K'] = .ok ⟨['M', 'K']⟩ :=
  ⟨(C7_construction_validates_alphabet ['a', 't', 'x']).1.mpr (by decide),
   (C7_construction_validates_alphabet ['M', 'K']).2.2.2.2.2 (by decide)⟩

namespace SeqVision

/-- Proof helper: the DNA complement dictionary as a total letter function. -/
def dnaComplChar (c : Char) : Char :=
  if c = 'A' then 'T'
  else if c = 'T' then 'A'
  else if c = 'C' then 'G'
  else if c = 'G' then 'C'
  else c

/-- Proof helper: the RNA complement dictionary as a total letter function. -/
def rnaComplChar (c : Char) : Char :=
  if c = 'A' then 'U'
  else if c = 'U' then 'A'
  else if c = 'C' then 'G'
  else if c = 'G' then 'C'
  else c

theorem dna_char_facts : ∀ c ∈ dnaAllowed,
    dnaComplementDict c = some (dnaComplChar c) ∧
    dnaComplChar c ∈ dnaAllowed ∧
    Char.toUpper (dnaComplChar c) = dnaComplChar c ∧
    dnaComplChar (dnaComplChar c) = c := by decide

theorem rna_char_facts : ∀ c ∈ rnaAllowed,
    rnaComplementDict c = some (rnaComplChar c) ∧
    rnaComplChar c ∈ rnaAllowed ∧
    Char.toUpper (rnaComplChar c) = rnaComplChar c ∧
    rnaComplChar (rnaComplChar c) = c := by decide

theorem dna_complement_of_valid {d : DNASequence}
    (h : ∀ c ∈ d.seq, c ∈ dnaAllowed) :
    d.complement = .ok ⟨d.seq.map dnaComplChar⟩ := by
  have hmap : mapDict dnaComplementDict d.seq = some (d.seq.map dnaComplChar) :=
    mapDict_eq_map _ _ _ (fun c hc => (dna_char_facts c (h c hc)).1)
  have hupper : (d.seq.map dnaComplChar).map Char.toUpper
      = d.seq.map dnaComplChar := by
    rw [List.map_map]
    refine List.map_congr_left ?_
    intro a ha
    simp only [Function.comp_apply]
    exact (dna_char_facts a (h a ha)).2.2.1
  have hval : ∀ c ∈ (d.seq.map dnaComplChar).map Char.toUpper, c ∈ dnaAllowed := by
    rw [hupper]
    intro c hc
    rcases List.mem_map.mp hc with ⟨a, ha, rfl⟩
    exact (dna_char_facts a (h a ha)).2.1
  unfold DNASequence.complement
  rw [hmap]
  have hok := @mkDNA_ok_of (d.seq.map dnaComplChar) hval
  rw [hupper] at hok
  exact hok

theorem rna_complement_of_valid {r : RNASequence}
    (h : ∀ c ∈ r.seq, c ∈ rnaAllowed) :
    r.complement = .ok ⟨r.seq.map rnaComplChar⟩ := by
  have hmap : mapDict rnaComplementDict r.seq = some (r.seq.map rnaComplChar) :=
    mapDict_eq_map _ _ _ (fun c hc => (rna_char_facts c (h c hc)).1)
  have hupper : (r.seq.map rnaComplChar).map Char.toUpper
      = r.seq.map rnaComplChar := by
    rw [List.map_map]
    refine List.map_congr_left ?_
    intro a ha
    simp only [Function.comp_apply]
    exact (rna_char_facts a (h a ha)).2.2.1
  have hval : ∀ c ∈ (r.seq.map rnaComplChar).map Char.toUpper, c ∈ rnaAllowed := by
    rw [hupper]
    intro c hc
    rcases List.mem_map.mp hc with ⟨a, ha, rfl⟩
    exact (rna_char_facts a (h a ha)).2.1
  unfold RNASequence.complement
  rw [hmap]
  have hok := @mkRNA_ok_of (r.seq.map rnaComplChar) hval
  rw [hupper] at hok
  exact hok

/-- C8: for every valid DNA sequence, complementing twice gives back the
original instance, and the same holds for every valid RNA sequence. -/
theorem C8_complement_involution :
    (∀ (s : List Char) (d : DNASequence), mkDNA s = .ok d →
      ∃ d', d.complement = .ok d' ∧ d'.complement = .ok d) ∧
    (∀ (s : List Char) (r : RNASequence), mkRNA s = .ok r →
      ∃ r', r.complement = .ok r' ∧ r'.complement = .ok r) := by
  constructor
  · intro s d h
    obtain ⟨-, hval⟩ := mkDNA_ok_inv h
    refine ⟨⟨d.seq.map dnaComplChar⟩, dna_complement_of_valid hval, ?_⟩
    have hval2 : ∀ c ∈ (⟨d.seq.map dnaComplChar⟩ : DNASequence).seq,
        c ∈ dnaAllowed := by
      intro c hc
      rcases List.mem_map.mp hc with ⟨a, ha, rfl⟩
      exact (dna_char_facts a (hval a ha)).2.1
    rw [dna_complement_of_valid hval2]
    have hinv : (d.seq.map dnaComplChar).map dnaComplChar = d.seq := by
      rw [List.map_map]
      have hid : ∀ a ∈ d.seq, (dnaComplChar ∘ dnaComplChar) a = id a := by
        intro a ha
        simp only [Function.comp_apply, id]
        exact (dna_char_facts a (hval a ha)).2.2.2
      rw [List.map_congr_left hid, List.map_id]
    cases d with
    | mk sq => simp only at hinv ⊢; rw [hinv]
  · intro s r h
    obtain ⟨-, hval⟩ := mkRNA_ok_inv h
    refine ⟨⟨r.seq.map rnaComplChar⟩, rna_complement_of_valid hval, ?_⟩
    have hval2 : ∀ c ∈ (⟨r.seq.map rnaComplChar⟩ : RNASequence).seq,
        c ∈ rnaAllowed := by
      intro c hc
      rcases List.mem_map.mp hc with ⟨a, ha, rfl⟩
      exact (rna_char_facts a (hval a ha)).2.1
    rw [rna_complement_of_valid hval2]
    have hinv : (r.seq.map rnaComplChar).map rnaComplChar = r.seq := by
      rw [List.map_map]
      have hid : ∀ a ∈ r.seq, (rnaComplChar ∘ rnaComplChar) a = id a := by
        intro a ha
        simp only [Function.comp_apply, id]
        exact (rna_char_facts a (hval a ha)).2.2.2
      rw [List.map_congr_left hid, List.map_id]
    cases r with
    | mk sq => simp only at hinv ⊢; rw [hinv]

/-- C8 applied to DNA `"ATGC"` and RNA `"AUGC"`. -/
theorem C8_complement_involution_witness :
    (∃ d', DNASequence.complement ⟨['A', 'T', 'G', 'C']⟩ = .ok d' ∧
      d'.complement = .ok ⟨['A', 'T', 'G', 'C']⟩) ∧
    (∃ r', RNASequence.complement ⟨['A', 'U', 'G', 'C']⟩ = .ok r' ∧
      r'.complement = .ok ⟨['A', 'U', 'G', 'C']⟩) :=
  ⟨C8_complement_involution.1 ['A', 'T', 'G', 'C'] ⟨['A', 'T', 'G', 'C']⟩
      (mkDNA_ok_of (by decide)),
   C8_complement_involution.2 ['A', 'U', 'G', 'C'] ⟨['A', 'U', 'G', 'C']⟩
      (mkRNA_ok_of (by decide))⟩

end SeqVision

namespace SeqVision

theorem transcribe_char_facts : ∀ c ∈ dnaAllowed,
    transcribeTranslate c ∈ rnaAllowed ∧
    Char.toUpper (transcribeTranslate c) = transcribeTranslate c := by decide

/-- C1: on every valid DNA sequence, `transcribe` succeeds and returns an
RNA instance whose letters are the input letters mapped through the table
A→U, T→A, C→G, G→C (the complement-style table, not a plain T→U
substitution: T goes to A and A goes to U). -/
theorem C1_transcribe_complement_style :
    (∀ (s : List Char) (d : DNASequence), mkDNA s = .ok d →
      d.transcribe = .ok ⟨d.seq.map transcribeTranslate⟩) ∧
    transcribeTranslate 'A' = 'U' ∧ transcribeTranslate 'T' = 'A' ∧
    transcribeTranslate 'C' = 'G' ∧ transcribeTranslate 'G' = 'C' ∧
    transcribeTranslate 'T' ≠ 'U' := by
  refine ⟨?_, rfl, rfl, rfl, rfl, by decide⟩
  intro s d h
  obtain ⟨-, hval⟩ := mkDNA_ok_inv h
  have hupper : (d.seq.map transcribeTranslate).map Char.toUpper
      = d.seq.map transcribeTranslate := by
    rw [List.map_map]
    refine List.map_congr_left ?_
    intro a ha
    simp only [Function.comp_apply]
    exact (transcribe_char_facts a (hval a ha)).2
  have hv2 : ∀ c ∈ (d.seq.map transcribeTranslate).map Char.toUpper,
      c ∈ rnaAllowed := by
    rw [hupper]
    intro c hc
    rcases List.mem_map.mp hc with ⟨a, ha, rfl⟩
    exact (transcribe_char_facts a (hval a ha)).1
  unfold DNASequence.transcribe
  have hok := @mkRNA_ok_of (d.seq.map transcribeTranslate) hv2
  rw [hupper] at hok
  exact hok

/-- C1 applied to DNA `"ATGC"`: transcription yields RNA `"UAGC"`. -/
theorem C1_transcribe_complement_style_witness :
    DNASequence.transcribe ⟨['A', 'T', 'G', 'C']⟩ =
      .ok ⟨['U', 'A', 'C', 'G']⟩ := by
  have h := C1_transcribe_complement_style.1 ['A', 'T', 'G', 'C']
    ⟨['A', 'T', 'G', 'C']⟩ (mkDNA_ok_of (by decide))
  exact h

theorem molecularWeightDict_nonneg : ∀ c ∈ proteinAllowed, ∀ q : ℚ,
    molecularWeightDict c = some q → 0 ≤ q := by
  intro c hc
  fin_cases hc <;> intro q h <;> injection h with h2 <;> rw [← h2] <;> norm_num

theorem molecularWeightDict_total : ∀ c ∈ proteinAllowed,
    ∃ q, molecularWeightDict c = some q := by
  intro c hc
  fin_cases hc <;> exact ⟨_, rfl⟩

theorem mapDict_total {β : Type} (f : Char → Option β) :
    ∀ (l : List Char), (∀ c ∈ l, ∃ b, f c = some b) →
      ∃ bs, mapDict f l = some bs := by
  intro l
  induction l with
  | nil => intro _; exact ⟨[], rfl⟩
  | cons c cs ih =>
    intro h
    obtain ⟨b, hb⟩ := h c (by simp)
    obtain ⟨bs, hbs⟩ := ih (fun x hx => h x (by simp [hx]))
    exact ⟨b :: bs, by simp [mapDict, hb, hbs]⟩

/-- C9: on every valid protein sequence, the molecular weight is the sum of
the per-letter masses from the weight table and is non-negative; on
`"MKWV"` it is exactly 149.21 + 146.19 + 204.23 + 117.15 = 616.78. -/
theorem C9_molecular_weight_sum :
    (∀ (s : List Char) (p : AminoAcidSequence), mkProtein s = .ok p →
      ∃ ws, mapDict molecularWeightDict p.seq = some ws ∧
        p.get_molecular_weight = .ok ws.sum ∧ 0 ≤ ws.sum) ∧
    AminoAcidSequence.get_molecular_weight ⟨['M', 'K', 'W', 'V']⟩ =
      .ok (61678 / 100) := by
  constructor
  · intro s p h
    obtain ⟨-, hval⟩ := mkProtein_ok_inv h
    obtain ⟨ws, hws⟩ := mapDict_total molecularWeightDict p.seq
      (fun c hc => molecularWeightDict_total c (hval c hc))
    refine ⟨ws, hws, ?_, ?_⟩
    · unfold AminoAcidSequence.get_molecular_weight
      rw [hws]
    · refine List.sum_nonneg ?_
      intro q hq
      obtain ⟨c, hcm, hfc⟩ := mapDict_mem molecularWeightDict hws q hq
      exact molecularWeightDict_nonneg c (hval c hcm) q hfc
  · have hmap : mapDict molecularWeightDict ['M', 'K', 'W', 'V'] =
        some [(14921 : ℚ) / 100, 14619 / 100, 20423 / 100, 11715 / 100] := rfl
    have hred : AminoAcidSequence.get_molecular_weight ⟨['M', 'K', 'W', 'V']⟩ =
        .ok ([(14921 : ℚ) / 100, 14619 / 100, 20423 / 100, 11715 / 100].sum) := by
      unfold AminoAcidSequence.get_molecular_weight
      rw [hmap]
    rw [hred]
    have hsum : ([(14921 : ℚ) / 100, 14619 / 100, 20423 / 100, 11715 / 100].sum)
        = 61678 / 100 := by
      simp only [List.sum_cons, List.sum_nil]
      norm_num
    rw [hsum]

/-- C9 applied to `"MKWV"`: the weight is the sum of its residue masses. -/
theorem C9_molecular_weight_sum_witness :
    ∃ ws, mapDict molecularWeightDict ['M', 'K', 'W', 'V'] = some ws ∧
      AminoAcidSequence.get_molecular_weight ⟨['M', 'K', 'W', 'V']⟩ =
        .ok ws.sum ∧ 0 ≤ ws.sum :=
  C9_molecular_weight_sum.1 ['M', 'K', 'W', 'V'] ⟨['M', 'K', 'W', 'V']⟩
    (mkProtein_ok_of (by decide))

end SeqVision

namespace DnaRnaTools

theorem dual_char_facts : ∀ c ∈ ['A', 'C', 'G', 'a', 'c', 'g'],
    (ComplementDictDna c).isSome ∧ (ComplementDictRna c).isSome ∧
    Char.toUpper c ∈ set_dna ∧ Char.toUpper c ∈ set_rna := by decide

theorem is_dna_of_dual {s : List Char}
    (h : ∀ c ∈ s, c ∈ ['A', 'C', 'G', 'a', 'c', 'g']) : is_dna s = true := by
  unfold is_dna
  rw [decide_eq_true_eq]
  intro x hx
  rw [List.mem_toFinset] at hx ⊢
  rcases List.mem_map.mp hx with ⟨a, ha, rfl⟩
  exact (dual_char_facts a (h a ha)).2.2.1

theorem is_rna_of_dual {s : List Char}
    (h : ∀ c ∈ s, c ∈ ['A', 'C', 'G', 'a', 'c', 'g']) : is_rna s = true := by
  unfold is_rna
  rw [decide_eq_true_eq]
  intro x hx
  rw [List.mem_toFinset] at hx ⊢
  rcases List.mem_map.mp hx with ⟨a, ha, rfl⟩
  exact (dual_char_facts a (h a ha)).2.2.2

/-- C10: on a string valid as both DNA and RNA (letters among
A, C, G in either case), the module-level `complement` returns the RNA-map
complement: the DNA branch runs first and its result is overwritten by the
RNA branch; in particular `complement("A")` is `"U"`, not `"T"`. -/
theorem C10_complement_rna_branch_wins (s : List Char)
    (h : ∀ c ∈ s, c ∈ ['A', 'C', 'G', 'a', 'c', 'g']) :
    (∃ cs, SeqVision.mapDict ComplementDictRna s = some cs ∧
      complement s = .ok cs) ∧
    complement ['A'] = .ok ['U'] ∧ complement ['A'] ≠ .ok ['T'] := by
  obtain ⟨cs1, hcs1⟩ := SeqVision.mapDict_total ComplementDictDna s
    (fun c hc => Option.isSome_iff_exists.mp (dual_char_facts c (h c hc)).1)
  obtain ⟨cs, hcs⟩ := SeqVision.mapDict_total ComplementDictRna s
    (fun c hc => Option.isSome_iff_exists.mp (dual_char_facts c (h c hc)).2.1)
  refine ⟨⟨cs, hcs, ?_⟩, by decide, by decide⟩
  unfold complement
  simp only [is_dna_of_dual h, is_rna_of_dual h, if_true, hcs1, hcs]

end DnaRnaTools

/-- C10 applied to `"aACG"`, which is valid as both DNA and RNA. -/
theorem C10_complement_rna_branch_wins_witness :
    (∃ cs, SeqVision.mapDict DnaRnaTools.ComplementDictRna ['a', 'A', 'C', 'G'] =
        some cs ∧ DnaRnaTools.complement ['a', 'A', 'C', 'G'] = .ok cs) ∧
    DnaRnaTools.complement ['A'] = .ok ['U'] ∧
    DnaRnaTools.complement ['A'] ≠ .ok ['T'] :=
  DnaRnaTools.C10_complement_rna_branch_wins ['a', 'A', 'C', 'G'] (by decide)

/-- C5: a scalar GC bound or a scalar length bound is reinterpreted as the
pair `(0, scalar)` — the scalar is the inclusive upper bound — and the two
normalizations are applied independently, in the streaming filter and in
the module filters alike. -/
theorem C5_scalar_bound_normalization (x : ℚ) (n : ℤ)
    (gb : FastqTool.GcBounds) (lb : FastqTool.LengthBounds) (t : ℚ)
    (lines : List (List Char)) (data : FastqTool.FastqData) :
    FastqTool.normalizeGc (.scalar x) = (0, x) ∧
    FastqTool.normalizeLength (.scalar n) = (0, n) ∧
    SeqVision.filter_fastq_lines (.scalar x) lb t lines =
      SeqVision.filter_fastq_lines (.pair 0 x) lb t lines ∧
    SeqVision.filter_fastq_lines gb (.scalar n) t lines =
      SeqVision.filter_fastq_lines gb (.pair 0 n) t lines ∧
    FastqTool.filter_reads_by_gc (.scalar x) data =
      FastqTool.filter_reads_by_gc (.pair 0 x) data ∧
    FastqTool.filter_length_bounds (.scalar n) data =
      FastqTool.filter_length_bounds (.pair 0 n) data :=
  ⟨rfl, rfl, rfl, rfl, rfl, rfl⟩

namespace FastqTool

/-- Proof helper: the GC admission test as a pure boolean (defined for
nonempty sequences, where `calculate_gc_content` does not raise). -/
def gcAdmitB (b : ℚ × ℚ) (r : Read) : Bool :=
  decide (b.1 ≤ (countGC r.1 : ℚ) / (r.1.length : ℚ) * 100 ∧
    (countGC r.1 : ℚ) / (r.1.length : ℚ) * 100 ≤ b.2)

/-- Proof helper: the length admission test as a pure boolean. -/
def lengthAdmitB (b : ℤ × ℤ) (r : Read) : Bool :=
  decide (b.1 ≤ (r.1.length : ℤ) ∧ (r.1.length : ℤ) ≤ b.2)

/-- Proof helper: the quality admission test as a pure boolean (defined for
nonempty quality strings). -/
def qualityAdmitB (t : ℚ) (r : Read) : Bool :=
  decide (((r.2.map (fun c => (c.toNat : ℤ) - 33)).sum : ℚ) /
    (r.2.length : ℚ) ≥ t)

theorem gcAdmit_ok {b : ℚ × ℚ} {r : Read} (h : r.1 ≠ []) :
    gcAdmit b r = .ok (gcAdmitB b r) := by
  unfold gcAdmit calculate_gc_content
  rw [if_neg (by simpa using h)]
  rfl

theorem lengthAdmit_ok (b : ℤ × ℤ) (r : Read) :
    lengthAdmit b r = .ok (lengthAdmitB b r) := rfl

theorem qualityAdmit_ok {t : ℚ} {r : Read} (h : r.2 ≠ []) :
    qualityAdmit t r = .ok (qualityAdmitB t r) := by
  unfold qualityAdmit
  rw [if_neg (by simpa using h)]
  rfl

theorem filterLoop_cons_true {adm : Read → Except SeqVision.PyError Bool}
    {e : String × Read} {todo acc : FastqData} (he : adm e.2 = .ok true) :
    filterLoop adm (e :: todo) acc = filterLoop adm todo acc := by
  have hstep : filterLoop adm (e :: todo) acc =
      match adm e.2 with
      | .error err => .error err
      | .ok true => filterLoop adm todo acc
      | .ok false =>
        filterLoop adm todo (acc.filter (fun x => decide (x.1 ≠ e.1))) := rfl
  rw [hstep, he]

theorem filterLoop_cons_false {adm : Read → Except SeqVision.PyError Bool}
    {e : String × Read} {todo acc : FastqData} (he : adm e.2 = .ok false) :
    filterLoop adm (e :: todo) acc =
      filterLoop adm todo (acc.filter (fun x => decide (x.1 ≠ e.1))) := by
  have hstep : filterLoop adm (e :: todo) acc =
      match adm e.2 with
      | .error err => .error err
      | .ok true => filterLoop adm todo acc
      | .ok false =>
        filterLoop adm todo (acc.filter (fun x => decide (x.1 ≠ e.1))) := rfl
  rw [hstep, he]

theorem filterLoop_eq_filter (adm : Read → Except SeqVision.PyError Bool)
    (admitB : Read → Bool) :
    ∀ (todo acc : FastqData), (∀ e ∈ todo, adm e.2 = .ok (admitB e.2)) →
      filterLoop adm todo acc =
        .ok (acc.filter (fun x =>
          todo.all (fun e => admitB e.2 || decide (x.1 ≠ e.1)))) := by
  intro todo
  induction todo with
  | nil =>
    intro acc _
    simp [filterLoop]
  | cons e todo ih =>
    intro acc h
    have he := h e (List.mem_cons_self e todo)
    have htodo : ∀ x ∈ todo, adm x.2 = .ok (admitB x.2) :=
      fun x hx => h x (List.mem_cons_of_mem e hx)
    cases hb : admitB e.2 with
    | true =>
      rw [filterLoop_cons_true (by rw [he, hb]), ih acc htodo]
      congr 1
      refine (List.filter_congr ?_).symm
      intro x _
      simp [List.all_cons, hb]
    | false =>
      rw [filterLoop_cons_false (by rw [he, hb]), ih _ htodo,
        List.filter_filter]
      congr 1
      refine (List.filter_congr ?_).symm
      intro x _
      simp [List.all_cons, hb, Bool.and_comm]
    
theorem filterLoop_self_eq_filter (adm : Read → Except SeqVision.PyError Bool)
    (admitB : Read → Bool) (data : FastqData)
    (hnd : (data.map Prod.fst).Nodup)
    (htot : ∀ e ∈ data, adm e.2 = .ok (admitB e.2)) :
    filterLoop adm data data = .ok (data.filter (fun e => admitB e.2)) := by
  rw [filterLoop_eq_filter adm admitB data data htot]
  congr 1
  refine List.filter_congr ?_
  intro x hx
  cases hb : admitB x.2 with
  | true =>
    rw [List.all_eq_true]
    intro e he
    by_cases hxe : x = e
    · simp [← hxe, hb]
    · have hkey : x.1 ≠ e.1 := by
        intro hk
        exact hxe (List.inj_on_of_nodup_map hnd hx he hk)
      simp [hkey]
  | false =>
    rw [List.all_eq_false]
    exact ⟨x, hx, by simp [hb]⟩

theorem filter_reads_by_gc_eq (gb : GcBounds) (data : FastqData)
    (hnd : (data.map Prod.fst).Nodup) (hne : ∀ e ∈ data, e.2.1 ≠ []) :
    filter_reads_by_gc gb data =
      .ok (data.filter (fun e => gcAdmitB (normalizeGc gb) e.2)) :=
  filterLoop_self_eq_filter _ _ data hnd
    (fun e he => gcAdmit_ok (hne e he))

theorem filter_length_bounds_eq (lb : LengthBounds) (data : FastqData)
    (hnd : (data.map Prod.fst).Nodup) :
    filter_length_bounds lb data =
      .ok (data.filter (fun e => lengthAdmitB (normalizeLength lb) e.2)) :=
  filterLoop_self_eq_filter _ _ data hnd
    (fun e _ => lengthAdmit_ok _ e.2)

theorem filter_quality_threshold_eq (t : ℚ) (data : FastqData)
    (hnd : (data.map Prod.fst).Nodup) (hne : ∀ e ∈ data, e.2.2 ≠ []) :
    filter_quality_threshold t data =
      .ok (data.filter (fun e => qualityAdmitB t e.2)) :=
  filterLoop_self_eq_filter _ _ data hnd
    (fun e he => qualityAdmit_ok (hne e he))

end FastqTool

/-- C3 as stated is false: `calculate_gc_content` divides by the sequence
length unguarded, so on a zero-length sequence the mapping-mode GC
predicate raises `ZeroDivisionError` instead of evaluating to false. -/
theorem C3_gc_zero_length_counterexample :
    FastqTool.calculate_gc_content [] =
      .error SeqVision.PyError.zeroDivisionError ∧
    FastqTool.filter_reads_by_gc (.pair 0 100) [("r1", ([], ['I']))] =
      .error SeqVision.PyError.zeroDivisionError :=
  ⟨rfl, rfl⟩

/-- C3 (amended): for a nonempty sequence the GC predicate computes
`100 * (count G + count C) / length` case-insensitively and admits iff the
value lies inside the inclusive bounds; on a zero-length sequence the
streaming-mode predicate evaluates to false without raising, but the
mapping-mode `calculate_gc_content` raises `ZeroDivisionError`. -/
theorem C3_gc_predicate_amended (lo hi : ℚ) (r : FastqTool.Read)
    (h : r.1 ≠ []) :
    FastqTool.calculate_gc_content r.1 =
      .ok (100 * (FastqTool.countGC r.1 : ℚ) / (r.1.length : ℚ)) ∧
    (FastqTool.gcAdmit (lo, hi) r = .ok true ↔
      (lo ≤ 100 * (FastqTool.countGC r.1 : ℚ) / (r.1.length : ℚ) ∧
        100 * (FastqTool.countGC r.1 : ℚ) / (r.1.length : ℚ) ≤ hi)) ∧
    FastqTool.calculate_gc_content [] =
      .error SeqVision.PyError.zeroDivisionError ∧
    SeqVision.streamGcPred lo hi [] = false := by
  have hlen : ¬ r.1.length = 0 := by simpa using h
  have hval : (FastqTool.countGC r.1 : ℚ) / (r.1.length : ℚ) * 100
      = 100 * (FastqTool.countGC r.1 : ℚ) / (r.1.length : ℚ) := by ring
  have hc : FastqTool.calculate_gc_content r.1 =
      .ok ((FastqTool.countGC r.1 : ℚ) / (r.1.length : ℚ) * 100) := by
    unfold FastqTool.calculate_gc_content
    rw [if_neg hlen]
  refine ⟨by rw [hc, hval], ?_, rfl, rfl⟩
  have ha : FastqTool.gcAdmit (lo, hi) r =
      .ok (decide (lo ≤ (FastqTool.countGC r.1 : ℚ) / (r.1.length : ℚ) * 100 ∧
        (FastqTool.countGC r.1 : ℚ) / (r.1.length : ℚ) * 100 ≤ hi)) := by
    unfold FastqTool.gcAdmit
    rw [hc]
  rw [ha, hval]
  simp [decide_eq_true_eq]

/-- C3 amended, applied at the read `("GC", "II")` with bounds (0, 100). -/
theorem C3_gc_predicate_amended_witness :
    FastqTool.gcAdmit (0, 100) (['G', 'C'], ['I', 'I']) = .ok true := by
  have h := C3_gc_predicate_amended 0 100 (['G', 'C'], ['I', 'I']) (by decide)
  refine h.2.1.mpr ?_
  have hcount : FastqTool.countGC ['G', 'C'] = 2 := by decide
  constructor <;> norm_num [hcount]

/-- C4 as stated is false: `filter_quality_threshold` divides by the length
of the quality string unguarded, so a read with an empty quality string
makes it raise `ZeroDivisionError` instead of rejecting the read. -/
theorem C4_quality_zero_length_counterexample :
    FastqTool.filter_quality_threshold 5 [("read1", (['A', 'C'], []))] =
      .error SeqVision.PyError.zeroDivisionError :=
  rfl

/-- C4 (amended): for a nonempty quality string the quality predicate
decodes each character as `code_point - 33`, averages, and admits iff the
mean reaches the threshold; on an empty quality string the streaming-mode
predicate evaluates to false without raising, but the mapping-mode
predicate raises `ZeroDivisionError`. -/
theorem C4_quality_predicate_amended (t : ℚ) (r : FastqTool.Read)
    (h : r.2 ≠ []) :
    (FastqTool.qualityAdmit t r = .ok true ↔
      ((r.2.map (fun c => (c.toNat : ℤ) - 33)).sum : ℚ) / (r.2.length : ℚ)
        ≥ t) ∧
    FastqTool.qualityAdmit t (['A'], []) =
      .error SeqVision.PyError.zeroDivisionError ∧
    SeqVision.streamQualPred t [] = false := by
  refine ⟨?_, rfl, rfl⟩
  rw [FastqTool.qualityAdmit_ok h]
  unfold FastqTool.qualityAdmitB
  simp [decide_eq_true_eq]

/-- C4 amended, applied at the read `("A", "II")` with threshold 0. -/
theorem C4_quality_predicate_amended_witness :
    FastqTool.qualityAdmit 0 (['A'], ['I', 'I']) = .ok true := by
  have h := C4_quality_predicate_amended 0 (['A'], ['I', 'I']) (by decide)
  refine h.1.mpr ?_
  have hsum : ((['I', 'I'].map (fun c => (c.toNat : ℤ) - 33)).sum) = 80 := by
    decide
  norm_num [hsum]
  all_goals decide

/-- C6 as stated is false: on a mapping containing a read with an empty
sequence, the mapping-mode GC filter raises `ZeroDivisionError` instead of
returning a filtered mapping. -/
theorem C6_mapping_filter_counterexample :
    FastqTool.filter_reads_by_gc (.pair 0 100) [("read2", ([], ['J']))] =
      .error SeqVision.PyError.zeroDivisionError :=
  rfl

/-- C6 (amended): on a mapping with distinct read names whose reads all
have nonempty sequence and quality strings, applying the three mapping-mode
filters in sequence succeeds and returns exactly the reads admitted by all
three predicates (logical AND), as a `List.filter` of the input — hence a
sublist preserving the input's insertion order — while the iteration only
ever deletes from the copied accumulator, leaving the input untouched; a
mapping containing an empty read instead raises `ZeroDivisionError`. -/
theorem C6_mapping_filter_amended (gb : FastqTool.GcBounds)
    (lb : FastqTool.LengthBounds) (t : ℚ) (data : FastqTool.FastqData)
    (hnd : (data.map Prod.fst).Nodup)
    (hne : ∀ e ∈ data, e.2.1 ≠ [] ∧ e.2.2 ≠ []) :
    ∃ d1 d2 res,
      FastqTool.filter_reads_by_gc gb data = .ok d1 ∧
      FastqTool.filter_length_bounds lb d1 = .ok d2 ∧
      FastqTool.filter_quality_threshold t d2 = .ok res ∧
      res = data.filter (fun e =>
        FastqTool.gcAdmitB (FastqTool.normalizeGc gb) e.2 &&
        FastqTool.lengthAdmitB (FastqTool.normalizeLength lb) e.2 &&
        FastqTool.qualityAdmitB t e.2) ∧
      res.Sublist data ∧
      ∀ e, e ∈ res ↔ e ∈ data ∧
        (FastqTool.gcAdmitB (FastqTool.normalizeGc gb) e.2 &&
         FastqTool.lengthAdmitB (FastqTool.normalizeLength lb) e.2 &&
         FastqTool.qualityAdmitB t e.2) = true := by
  have h1 := FastqTool.filter_reads_by_gc_eq gb data hnd
    (fun e he => (hne e he).1)
  obtain ⟨d1, hd1, hd1eq⟩ : ∃ d1, FastqTool.filter_reads_by_gc gb data =
      .ok d1 ∧ d1 = data.filter
        (fun e => FastqTool.gcAdmitB (FastqTool.normalizeGc gb) e.2) :=
    ⟨_, h1, rfl⟩
  have hsub1 : d1.Sublist data := by
    rw [hd1eq]
    exact List.filter_sublist data
  have hnd1 : (d1.map Prod.fst).Nodup :=
    List.Nodup.sublist (hsub1.map Prod.fst) hnd
  have h2 := FastqTool.filter_length_bounds_eq lb d1 hnd1
  obtain ⟨d2, hd2, hd2eq⟩ : ∃ d2, FastqTool.filter_length_bounds lb d1 =
      .ok d2 ∧ d2 = d1.filter
        (fun e => FastqTool.lengthAdmitB (FastqTool.normalizeLength lb) e.2) :=
    ⟨_, h2, rfl⟩
  have hsub2 : d2.Sublist d1 := by
    rw [hd2eq]
    exact List.filter_sublist d1
  have hnd2 : (d2.map Prod.fst).Nodup :=
    List.Nodup.sublist (hsub2.map Prod.fst) hnd1
  have hne2 : ∀ e ∈ d2, e.2.2 ≠ [] :=
    fun e he => (hne e (hsub1.mem (hsub2.mem he))).2
  have h3 := FastqTool.filter_quality_threshold_eq t d2 hnd2 hne2
  have hres : d2.filter (fun e => FastqTool.qualityAdmitB t e.2)
      = data.filter (fun e =>
        FastqTool.gcAdmitB (FastqTool.normalizeGc gb) e.2 &&
        FastqTool.lengthAdmitB (FastqTool.normalizeLength lb) e.2 &&
        FastqTool.qualityAdmitB t e.2) := by
    rw [hd2eq, hd1eq, List.filter_filter, List.filter_filter]
    refine List.filter_congr ?_
    intro x _
    simp [Bool.and_comm, Bool.and_left_comm, Bool.and_assoc]
  refine ⟨d1, d2, _, hd1, hd2, h3, hres, ?_, ?_⟩
  · rw [hres]
    exact List.filter_sublist data
  · intro e
    rw [hres, List.mem_filter]

/-- C6 amended, applied to the one-read mapping `{"r1": ("A", "I")}`. -/
theorem C6_mapping_filter_amended_witness :
    ∃ d1 d2 res,
      FastqTool.filter_reads_by_gc (.pair 0 100) [("r1", (['A'], ['I']))] =
        .ok d1 ∧
      FastqTool.filter_length_bounds (.pair 0 10) d1 = .ok d2 ∧
      FastqTool.filter_quality_threshold 0 d2 = .ok res ∧
      res = [("r1", (['A'], ['I']))].filter (fun e =>
        FastqTool.gcAdmitB (FastqTool.normalizeGc (.pair 0 100)) e.2 &&
        FastqTool.lengthAdmitB (FastqTool.normalizeLength (.pair 0 10)) e.2 &&
        FastqTool.qualityAdmitB 0 e.2) ∧
      res.Sublist [("r1", (['A'], ['I']))] ∧
      ∀ e, e ∈ res ↔ e ∈ [("r1", (['A'], ['I']))] ∧
        (FastqTool.gcAdmitB (FastqTool.normalizeGc (.pair 0 100)) e.2 &&
         FastqTool.lengthAdmitB (FastqTool.normalizeLength (.pair 0 10)) e.2 &&
         FastqTool.qualityAdmitB 0 e.2) = true :=
  C6_mapping_filter_amended (.pair 0 100) (.pair 0 10) 0
    [("r1", (['A'], ['I']))] (by decide) (by decide)

namespace SeqVision

theorem head_cons_tail {l : List Char} {c : Char} (h : l.head? = some c) :
    l = c :: l.tail := by
  cases l with
  | nil => exact Option.noConfusion h
  | cons a ta =>
    injection h with h
    rw [h]
    rfl

theorem parseFastqLines_cons_eq (l1 l2 l3 l4 : List Char)
    (rest : List (List Char)) :
    parseFastqLines (l1 :: l2 :: l3 :: l4 :: rest) =
      if l1.head? = some '@' ∧ l3.head? = some '+' then
        if l3.tail ≠ [] ∧ l3.tail ≠ l1.tail then .error .malformedRecord
        else if l2.length ≠ l4.length then .error .malformedRecord
        else if ¬ l4.all (fun c => 33 ≤ c.toNat && c.toNat ≤ 126) then
          .error .malformedRecord
        else
          match parseFastqLines rest with
          | .ok rs => .ok (⟨l1.tail, l2, l3.tail, l4⟩ :: rs)
          | .error e => .error e
      else .error .malformedRecord := rfl

/-- Every successfully parsed line list is exactly the concatenation of its
records' original four-line groups. -/
theorem parseFastqLines_sourceLines :
    ∀ (lines : List (List Char)) (recs : List FastqRecord),
      parseFastqLines lines = .ok recs →
      lines = recs.flatMap FastqRecord.sourceLines := by
  intro lines
  induction lines using parseFastqLines.induct with
  | case1 =>
    intro recs h
    rw [show parseFastqLines [] = .ok [] from rfl] at h
    injection h with h
    subst h
    rfl
  | case2 l1 l2 l3 l4 rest hat h1 =>
    intro recs h
    rw [parseFastqLines_cons_eq, if_pos hat, if_pos h1] at h
    exact Except.noConfusion h
  | case3 l1 l2 l3 l4 rest hat h1 h2 =>
    intro recs h
    rw [parseFastqLines_cons_eq, if_pos hat, if_neg h1, if_pos h2] at h
    exact Except.noConfusion h
  | case4 l1 l2 l3 l4 rest hat h1 h2 h3 =>
    intro recs h
    rw [parseFastqLines_cons_eq, if_pos hat, if_neg h1, if_neg h2,
      if_pos h3] at h
    exact Except.noConfusion h
  | case5 l1 l2 l3 l4 rest hat h1 h2 h3 rs hrs ih =>
    intro recs h
    rw [parseFastqLines_cons_eq, if_pos hat, if_neg h1, if_neg h2, if_neg h3,
      hrs] at h
    injection h with h
    subst h
    have hrest := ih rs hrs
    rw [List.flatMap_cons, ← hrest]
    show l1 :: l2 :: l3 :: l4 :: rest =
      ('@' :: l1.tail) :: l2 :: ('+' :: l3.tail) :: l4 :: rest
    rw [← head_cons_tail hat.1, ← head_cons_tail hat.2]
  | case6 l1 l2 l3 l4 rest hat h1 h2 h3 e he ih =>
    intro recs h
    rw [parseFastqLines_cons_eq, if_pos hat, if_neg h1, if_neg h2, if_neg h3,
      he] at h
    exact Except.noConfusion h
  | case7 l1 l2 l3 l4 rest hat =>
    intro recs h
    rw [parseFastqLines_cons_eq, if_neg hat] at h
    exact Except.noConfusion h
  | case8 t hnil hshape =>
    intro recs h
    rcases t with _ | ⟨a, _ | ⟨b, _ | ⟨c, _ | ⟨d, rest⟩⟩⟩⟩
    · exact absurd rfl hnil
    · exact Except.noConfusion h
    · exact Except.noConfusion h
    · exact Except.noConfusion h
    · exact absurd rfl (hshape a b c d rest)

theorem flatMap_congr {α β : Type} {l : List α} {f g : α → List β}
    (h : ∀ a ∈ l, f a = g a) : l.flatMap f = l.flatMap g := by
  induction l with
  | nil => rfl
  | cons a l ih =>
    rw [List.flatMap_cons, List.flatMap_cons, h a (by simp),
      ih (fun x hx => h x (by simp [hx]))]

theorem writeRecord_eq_sourceLines {r : FastqRecord} (h : r.plus = []) :
    writeRecord r = r.sourceLines := by
  unfold writeRecord FastqRecord.sourceLines
  rw [h]

theorem filter_fastq_lines_eq (gb : FastqTool.GcBounds)
    (lb : FastqTool.LengthBounds) (t : ℚ) (lines : List (List Char)) :
    filter_fastq_lines gb lb t lines =
      match parseFastqLines lines with
      | .error e => .error e
      | .ok recs => .ok ((recs.filter (recordAdmitted
          (FastqTool.normalizeGc gb) (FastqTool.normalizeLength lb)
          t)).flatMap writeRecord) := rfl

end SeqVision

/-- C2 (amended): on every well-formed FASTQ line list, the streaming
filter writes exactly the records admitted by the three predicates, in
input order, with no blank lines added — but each admitted record is
re-serialized as identifier line, sequence line, a bare `+` line, and
quality line, dropping any repeated identifier after `+`; records whose
third line is exactly `+` are therefore reproduced verbatim. -/
theorem C2_streaming_filter_amended (gb : FastqTool.GcBounds)
    (lb : FastqTool.LengthBounds) (t : ℚ) (lines : List (List Char))
    (recs : List SeqVision.FastqRecord)
    (h : SeqVision.parseFastqLines lines = .ok recs) :
    ∃ out, SeqVision.filter_fastq_lines gb lb t lines = .ok out ∧
      out = (recs.filter (SeqVision.recordAdmitted (FastqTool.normalizeGc gb)
        (FastqTool.normalizeLength lb) t)).flatMap SeqVision.writeRecord ∧
      lines = recs.flatMap SeqVision.FastqRecord.sourceLines ∧
      ((∀ r ∈ recs, r.plus = []) →
        out = (recs.filter (SeqVision.recordAdmitted
          (FastqTool.normalizeGc gb) (FastqTool.normalizeLength lb)
          t)).flatMap SeqVision.FastqRecord.sourceLines) := by
  refine ⟨_, ?_, rfl, SeqVision.parseFastqLines_sourceLines lines recs h, ?_⟩
  · rw [SeqVision.filter_fastq_lines_eq, h]
  · intro hplus
    exact SeqVision.flatMap_congr (fun r hr =>
      SeqVision.writeRecord_eq_sourceLines
        (hplus r (List.mem_of_mem_filter hr)))

/-- C2 as stated is false: an admitted record whose third line repeats the
identifier (`+r1`) is not copied verbatim — the writer emits a bare `+`
line, so the output differs from the input's four lines. -/
theorem C2_not_verbatim_counterexample :
    SeqVision.filter_fastq_lines (.pair 0 100) (.pair 0 1000) 0
        [['@', 'r', '1'], ['A', 'C', 'G', 'T'], ['+', 'r', '1'],
          ['I', 'I', 'I', 'I']] =
      .ok [['@', 'r', '1'], ['A', 'C', 'G', 'T'], ['+'],
          ['I', 'I', 'I', 'I']] ∧
    [['@', 'r', '1'], ['A', 'C', 'G', 'T'], ['+'], ['I', 'I', 'I', 'I']] ≠
      [['@', 'r', '1'], ['A', 'C', 'G', 'T'], ['+', 'r', '1'],
        ['I', 'I', 'I', 'I']] := by
  constructor
  · have hparse : SeqVision.parseFastqLines
        [['@', 'r', '1'], ['A', 'C', 'G', 'T'], ['+', 'r', '1'],
          ['I', 'I', 'I', 'I']] =
        .ok [⟨['r', '1'], ['A', 'C', 'G', 'T'], ['r', '1'],
          ['I', 'I', 'I', 'I']⟩] := rfl
    have hgcf : SeqVision.gc_fraction ['A', 'C', 'G', 'T'] = 1 / 2 := by
      have c1 : List.count 'C' ['A', 'C', 'G', 'T'] = 1 := by decide
      have c2 : List.count 'G' ['A', 'C', 'G', 'T'] = 1 := by decide
      have c3 : List.count 'S' ['A', 'C', 'G', 'T'] = 0 := by decide
      have c4 : List.count 'c' ['A', 'C', 'G', 'T'] = 0 := by decide
      have c5 : List.count 'g' ['A', 'C', 'G', 'T'] = 0 := by decide
      have c6 : List.count 's' ['A', 'C', 'G', 'T'] = 0 := by decide
      unfold SeqVision.gc_fraction
      norm_num [c1, c2, c3, c4, c5, c6]
    have hgc : SeqVision.streamGcPred 0 100 ['A', 'C', 'G', 'T'] = true := by
      unfold SeqVision.streamGcPred
      rw [hgcf]
      norm_num
    have hq : SeqVision.streamQualPred 0 ['I', 'I', 'I', 'I'] = true := by
      have hsum : ((['I', 'I', 'I', 'I'].map
          (fun c => (c.toNat : ℤ) - 33)).sum) = 160 := by decide
      unfold SeqVision.streamQualPred
      rw [hsum]
      norm_num
    have hlen : SeqVision.streamLenPred 0 1000 ['A', 'C', 'G', 'T'] =
        true := by decide
    have hadm : SeqVision.recordAdmitted (0, 100) (0, 1000) 0
        ⟨['r', '1'], ['A', 'C', 'G', 'T'], ['r', '1'],
          ['I', 'I', 'I', 'I']⟩ = true := by
      show (SeqVision.streamLenPred 0 1000 ['A', 'C', 'G', 'T'] &&
        SeqVision.streamGcPred 0 100 ['A', 'C', 'G', 'T'] &&
        SeqVision.streamQualPred 0 ['I', 'I', 'I', 'I']) = true
      rw [hlen, hgc, hq]
      rfl
    have hfilter : (([⟨['r', '1'], ['A', 'C', 'G', 'T'], ['r', '1'],
        ['I', 'I', 'I', 'I']⟩] : List SeqVision.FastqRecord).filter
        (SeqVision.recordAdmitted (0, 100) (0, 1000) 0)) =
        [⟨['r', '1'], ['A', 'C', 'G', 'T'], ['r', '1'],
          ['I', 'I', 'I', 'I']⟩] := by
      rw [List.filter_cons]
      rw [hadm]
      rfl
    have hfl : SeqVision.filter_fastq_lines (.pair 0 100) (.pair 0 1000) 0
        [['@', 'r', '1'], ['A', 'C', 'G', 'T'], ['+', 'r', '1'],
          ['I', 'I', 'I', 'I']] =
        .ok ((([⟨['r', '1'], ['A', 'C', 'G', 'T'], ['r', '1'],
            ['I', 'I', 'I', 'I']⟩] : List SeqVision.FastqRecord).filter
          (SeqVision.recordAdmitted (0, 100) (0, 1000) 0)).flatMap
          SeqVision.writeRecord) := by
      rw [SeqVision.filter_fastq_lines_eq, hparse]
      rfl
    rw [hfl, hfilter]
    rfl
  · decide

/-- C2 amended, applied to a one-record file whose plus line is bare. -/
theorem C2_streaming_filter_amended_witness :
    ∃ out, SeqVision.filter_fastq_lines (.pair 0 100) (.pair 0 10) 0
        [['@', 'x'], ['G'], ['+'], ['!']] = .ok out ∧
      out = (([⟨['x'], ['G'], [], ['!']⟩] :
          List SeqVision.FastqRecord).filter
          (SeqVision.recordAdmitted (FastqTool.normalizeGc (.pair 0 100))
            (FastqTool.normalizeLength (.pair 0 10)) 0)).flatMap
          SeqVision.writeRecord ∧
      [['@', 'x'], ['G'], ['+'], ['!']] =
        ([⟨['x'], ['G'], [], ['!']⟩] : List SeqVision.FastqRecord).flatMap
          SeqVision.FastqRecord.sourceLines ∧
      ((∀ r ∈ ([⟨['x'], ['G'], [], ['!']⟩] : List SeqVision.FastqRecord),
          r.plus = []) →
        out = (([⟨['x'], ['G'], [], ['!']⟩] :
          List SeqVision.FastqRecord).filter
          (SeqVision.recordAdmitted (FastqTool.normalizeGc (.pair 0 100))
            (FastqTool.normalizeLength (.pair 0 10)) 0)).flatMap
          SeqVision.FastqRecord.sourceLines) :=
  C2_streaming_filter_amended (.pair 0 100) (.pair 0 10) 0
    [['@', 'x'], ['G'], ['+'], ['!']] [⟨['x'], ['G'], [], ['!']⟩] rfl
